import Mathlib

/-!
Verification of the memoizing cache of TimelineTrackerCLI (src/cache.py).

The `Cache` class keeps two dictionaries keyed by strings, `_memory_cache`
(values) and `_expirations` (timestamps), an optional backend file holding a
pickled snapshot of both maps, and a per-instance timeout. We embed the class
shallowly: dictionaries become functions `Key → Option _`, the pickled file
becomes an `Option Snapshot` field, and `datetime.now()` becomes a timestamp
(milliseconds, `Nat`) passed to each operation. Each dictionary loop in the
source touches distinct keys independently, so the loops are translated
pointwise.
-/

namespace TTCache

/-- Cache keys are strings (cache.py line 22: `Dict[str, Any]`). -/
abbrev Key := String

/-- The pickled backend file contents (cache.py lines 110-113): a pair of
maps, `items` from key to cached value and `expirations` from key to
expiration timestamp. -/
structure Snapshot (V : Type) where
  items : Key → Option V
  expirations : Key → Option Nat

/-- The state of one `Cache` instance (cache.py lines 18-35) together with
the backend file it can see. `fileEnabled` models `_file_path is not None`;
`file = none` models a backend file that does not exist yet. -/
structure CacheState (V : Type) where
  memory : Key → Option V
  expirations : Key → Option Nat
  fileEnabled : Bool
  file : Option (Snapshot V)
  timeoutMs : Nat

/-- Constant `_MILLIS_PER_HOUR` (cache.py line 9). -/
def millisPerHour : Nat := 1000 * 60 * 60

/-- Pointwise map update, modelling `d[k] = v` on a Python dict. -/
def mapSet (m : Key → Option α) (k : Key) (v : α) : Key → Option α :=
  fun k2 => if k2 = k then some v else m k2

/-- Pointwise map removal, modelling `d.pop(k)` on a Python dict. -/
def mapErase (m : Key → Option α) (k : Key) : Key → Option α :=
  fun k2 => if k2 = k then none else m k2

/-- Model of `Cache._get_item_key` (cache.py lines 74-77): join the target name and
the string forms of the positional arguments, keyword names and keyword
values with the delimiter `;;;`. -/
def getItemKey (methodName : String) (parts : List String) : Key :=
  String.intercalate ";;;" (methodName :: parts)

/-- Model of `Cache._check_memory_invalidations` (cache.py lines 79-84): for every
key whose recorded expiration is strictly before `now`, remove the key from
both maps. The Python loop iterates over a copy of `_expirations` and each
iteration touches only its own key, so it is translated pointwise. A key
present in `_expirations` but missing from `_memory_cache` would raise a
KeyError in the source; the pointwise translation removes it from both maps,
which agrees with the source on all states satisfying the key-set invariant
(`CacheWF` below). -/
def checkMemoryInvalidations (now : Nat) (st : CacheState V) : CacheState V :=
  { st with
    memory := fun k =>
      match st.expirations k with
      | some e => if e < now then none else st.memory k
      | none => st.memory k
    expirations := fun k =>
      match st.expirations k with
      | some e => if e < now then none else some e
      | none => none }

/-- The import condition of `Cache._update_from_file_cache` (cache.py line
102): the snapshot expiration `e` is strictly after `now`, and either the
local map has no expiration for the key or the snapshot expiration is
strictly later than the local one. -/
def importCond (now : Nat) (localExp : Option Nat) (e : Nat) : Bool :=
  decide (now < e) &&
    (match localExp with
     | none => true
     | some le => decide (le < e))

/-- Model of `Cache._update_from_file_cache` (cache.py lines 92-104): if the backend
file exists, read its snapshot and, for every key it records an expiration
for, import the snapshot entry when `importCond` holds; other keys are left
untouched. The Python loop iterates over the snapshot expirations and each
iteration touches only its own key, so it is translated pointwise. A key
present in the snapshot expirations but missing from the snapshot items
would raise a KeyError in the source (`cache_items[item_key]`); the
translation stores `snap.items k` directly, which agrees with the source on
all snapshots satisfying the key-set invariant (`SnapWF` below), and every
snapshot the source writes satisfies it. -/
def updateFromFileCache (now : Nat) (st : CacheState V) : CacheState V :=
  match st.file with
  | none => st
  | some snap =>
    { st with
      memory := fun k =>
        match snap.expirations k with
        | some e => if importCond now (st.expirations k) e then snap.items k else st.memory k
        | none => st.memory k
      expirations := fun k =>
        match snap.expirations k with
        | some e => if importCond now (st.expirations k) e then some e else st.expirations k
        | none => st.expirations k }

/-- Model of `Cache._write_to_file_cache` (cache.py lines 106-114): when the instance
has a file path, overwrite the backend file with a snapshot of both maps. -/
def writeToFileCache (st : CacheState V) : CacheState V :=
  if st.fileEnabled then { st with file := some ⟨st.memory, st.expirations⟩ } else st

/-- Model of `Cache._store` (cache.py lines 86-90): merge from the backend file, set
the value and the expiration `now + timeout` for the key, then write the
whole state through to the backend file. -/
def store (now : Nat) (st : CacheState V) (k : Key) (item : V) : CacheState V :=
  let st1 := updateFromFileCache now st
  writeToFileCache
    { st1 with
      memory := mapSet st1.memory k item
      expirations := mapSet st1.expirations k (now + st1.timeoutMs) }

/-- The outcome of one `_inner_get` call: the value the caller receives
(`none` models the impossible final KeyError), the state after the call, and
whether the target was invoked. -/
structure GetResult (V : Type) where
  value : Option V
  state : CacheState V
  invoked : Bool

/-- Model of `Cache._inner_get` (cache.py lines 62-72) for a target whose computation
succeeds with value `compute`: sweep expired entries, merge from the backend
file when the key is absent, store the computed value when it is still
absent, and return the stored value for the key. -/
def innerGet (now : Nat) (st : CacheState V) (k : Key) (compute : V) : GetResult V :=
  let st1 := checkMemoryInvalidations now st
  let st2 := if (st1.memory k).isSome then st1 else updateFromFileCache now st1
  if (st2.memory k).isSome then
    ⟨st2.memory k, st2, false⟩
  else
    let st3 := store now st2 k compute
    ⟨st3.memory k, st3, true⟩

/-- Model of `Cache._inner_get` for a target that may raise: `method(*args, **kwargs)`
is evaluated before `_store` is entered (cache.py line 70), so on a raising
target the exception propagates and `_store` never runs; the state at that
point is the one left by the sweep and the merge. -/
def innerGetExc (now : Nat) (st : CacheState V) (k : Key) (compute : Except E V) :
    Except E (Option V) × CacheState V :=
  let st1 := checkMemoryInvalidations now st
  let st2 := if (st1.memory k).isSome then st1 else updateFromFileCache now st1
  if (st2.memory k).isSome then
    (Except.ok (st2.memory k), st2)
  else
    match compute with
    | Except.error e => (Except.error e, st2)
    | Except.ok v =>
      let st3 := store now st2 k v
      (Except.ok (st3.memory k), st3)

/-- Model of `Cache.get_multi` (cache.py lines 46-47): derive the key from the target
name, the positional arguments, the keyword names and the keyword values,
then run `_inner_get`. -/
def getMulti (now : Nat) (st : CacheState V) (methodName : String)
    (args kwNames kwValues : List String) (compute : V) : GetResult V :=
  innerGet now st (getItemKey methodName (args ++ kwNames ++ kwValues)) compute

/-- Model of `Cache.invalidate` (cache.py lines 54-60): derive the key, merge from
the backend file, and when the key has an expiration remove it from both
maps and write the state through to the backend file. -/
def invalidate (now : Nat) (st : CacheState V) (k : Key) : CacheState V :=
  let st1 := updateFromFileCache now st
  if (st1.expirations k).isSome then
    writeToFileCache
      { st1 with
        memory := mapErase st1.memory k
        expirations := mapErase st1.expirations k }
  else st1

/-- Model of `Cache.flush` (cache.py lines 49-52): clear both maps and write the
empty state through to the backend file. -/
def flush (st : CacheState V) : CacheState V :=
  writeToFileCache { st with memory := fun _ => none, expirations := fun _ => none }

/-- The state built by `Cache.__init__` (cache.py lines 28-35) after the
name validation passed: empty maps; the backend file is visible only when
`file=True` was requested (`disk` is the file already on disk, if any). -/
def initState (fe : Bool) (tm : Nat) (disk : Option (Snapshot V)) : CacheState V :=
  { memory := fun _ => none
    expirations := fun _ => none
    fileEnabled := fe
    file := if fe then disk else none
    timeoutMs := tm }

/-- The character class `[a-zA-Z0-9]` of the name validation regex
(cache.py line 26). -/
def isAlnumAscii (c : Char) : Bool :=
  (decide ('a' ≤ c) && decide (c ≤ 'z')) ||
    (decide ('A' ≤ c) && decide (c ≤ 'Z')) ||
      (decide ('0' ≤ c) && decide (c ≤ '9'))

/-- Python semantics of the anchor `$` without MULTILINE: it matches at the
end of the string or just before a newline at the end of the string. -/
def dollarMatches : List Char → Bool
  | [] => true
  | [c] => c = '\n'
  | _ :: _ :: _ => false

/-- Matcher for the tail `[a-zA-Z0-9]*$` of the validation regex, with
backtracking: at every position either `$` matches here or one more
alphanumeric character is consumed. -/
def matchStarDollar : List Char → Bool
  | [] => dollarMatches []
  | c :: rest => dollarMatches (c :: rest) || (isAlnumAscii c && matchStarDollar rest)

/-- Model of `re.match` applied to the pattern of cache.py line 26: `re.match`
anchors at the start, `+` requires at least one alphanumeric character, and
`$` follows Python semantics (`dollarMatches`). -/
def cacheNameOk (name : String) : Bool :=
  match name.data with
  | [] => false
  | c :: rest => isAlnumAscii c && matchStarDollar rest

/-- Model of `Cache.__init__` (cache.py lines 25-35): raise ValueError when the name
fails the regex, otherwise build the fresh state. -/
def cacheInit (name : String) (fe : Bool) (tm : Nat) (disk : Option (Snapshot V)) :
    Except String (CacheState V) :=
  if cacheNameOk name then Except.ok (initState fe tm disk)
  else Except.error "ValueError: Argument must only have alpha-numeric characters"

/-- Whether an `Except` computation succeeded. -/
def exceptIsOk : Except E A → Bool
  | Except.ok _ => true
  | Except.error _ => false

/-- The two exceptions `with_cache` can raise itself (cache.py lines 118-121). -/
inductive WithCacheError where
  | valueError
  | typeError
deriving DecidableEq

/-- The argument validation of `with_cache` (cache.py lines 117-121). Python
optional parameters are modelled as `Option` values with `none` standing for
Python `None`; the declared defaults are `name=None`, `file=False`,
`timeout_ms=_MILLIS_PER_HOUR` and `cache=None`, so a caller relying on the
defaults passes `none`, `some false`, `some millisPerHour` and `none`. The
first check is `cache is not None and any(x is not None for x in (name,
file, timeout_ms))`, the second is `cache is None and name is None`. -/
def withCacheValidate (name : Option String) (file : Option Bool)
    (timeoutMs : Option Nat) (cache : Option (CacheState V)) :
    Except WithCacheError Unit :=
  if cache.isSome && (name.isSome || file.isSome || timeoutMs.isSome) then
    Except.error WithCacheError.valueError
  else if cache.isNone && name.isNone then
    Except.error WithCacheError.typeError
  else
    Except.ok ()

/-- Python call binding for the signature `def cache_wrapped_function(*args)`
(cache.py line 126): every positional argument is collected into `args`, and
any keyword argument raises a TypeError because the signature declares no
keyword parameter and no `**kwargs`. -/
def bindStarArgs (args : List String) (kwargs : List (String × String)) :
    Except String (List String) :=
  match kwargs with
  | [] => Except.ok args
  | (kn, _) :: _ =>
    Except.error ("TypeError: cache_wrapped_function got an unexpected keyword argument " ++ kn)

/-- A call to the wrapper returned by `with_cache` (cache.py lines 126-127):
bind the call arguments against the `*args`-only signature, then forward the
positional arguments to `get_multi` with no keyword arguments. -/
def cacheWrappedFunction (now : Nat) (st : CacheState V) (fnName : String)
    (compute : V) (args : List String) (kwargs : List (String × String)) :
    Except String (GetResult V) :=
  match bindStarArgs args kwargs with
  | Except.error msg => Except.error msg
  | Except.ok pos => Except.ok (getMulti now st fnName pos [] [] compute)

/-- The observable outcome of a sequence of `get` calls at given times for
one key on one instance: the final state, how many of the calls invoked the
target, and the value each call returned. -/
structure RunResult (V : Type) where
  state : CacheState V
  invocations : Nat
  returns : List (Option V)

/-- Run `_inner_get` once per timestamp in `ts`, threading the state. -/
def runGets (st : CacheState V) (k : Key) (compute : V) : List Nat → RunResult V
  | [] => ⟨st, 0, []⟩
  | t :: ts =>
    let r := innerGet t st k compute
    let rest := runGets r.state k compute ts
    ⟨rest.state, (if r.invoked then 1 else 0) + rest.invocations, r.value :: rest.returns⟩

/-- A heap of Python objects: an address is an index into the list. `deepcopy`
(cache.py line 72) reads the object at an address and allocates an equal
object at a fresh address, leaving every existing address untouched. -/
def heapDeepcopy (h : List V) (a : Nat) : List V × Option Nat :=
  match h.get? a with
  | some v => (h ++ [v], some h.length)
  | none => (h, none)

/-- In-place mutation of the Python object stored at address `a`. -/
def heapWrite (h : List V) (a : Nat) (w : V) : List V := h.set a w

/-- Model of `Cache._inner_get` at the Python object level: the memory map
stores addresses into the heap, and `return deepcopy(self._memory_cache[item_key])`
(cache.py line 72) hands the caller a fresh copy of the stored object. -/
def innerGetRef (now : Nat) (st : CacheState Nat) (h : List V) (k : Key)
    (computeAddr : Nat) : Option Nat × CacheState Nat × List V :=
  let r := innerGet now st k computeAddr
  match r.value with
  | none => (none, r.state, h)
  | some a =>
    let copy := heapDeepcopy h a
    (copy.2, r.state, copy.1)


/-- Concrete sample objects used to evaluate the operations at specific
inputs. -/
def sampleSnap : Snapshot Nat :=
  ⟨fun k => if k = "a" then some 5 else none, fun k => if k = "a" then some 20 else none⟩

/-- A persisted instance with an empty memory that can see `sampleSnap`. -/
def sampleFileState : CacheState Nat :=
  { memory := fun _ => none, expirations := fun _ => none, fileEnabled := true,
    file := some sampleSnap, timeoutMs := 50 }

/-- A fresh memory-only instance with a 50 ms timeout. -/
def sampleMemState : CacheState Nat := initState false 50 none


/-- Key-set invariant of one instance: a key has a cached value exactly when
it has an expiration. -/
def CacheWF (st : CacheState V) : Prop :=
  ∀ k, (st.memory k).isSome ↔ (st.expirations k).isSome

/-- Key-set invariant of a snapshot. -/
def SnapWF (snap : Snapshot V) : Prop :=
  ∀ k, (snap.items k).isSome ↔ (snap.expirations k).isSome

/-- The backend file, when it exists, holds a well-formed snapshot. -/
def FileWF (st : CacheState V) : Prop :=
  ∀ snap, st.file = some snap → SnapWF snap

/-- Combined invariant: instance maps and backend file are well-formed. -/
def Inv (st : CacheState V) : Prop :=
  CacheWF st ∧ FileWF st

end TTCache

namespace TTCache

variable {V : Type} {E : Type}

lemma sweep_mem (now : Nat) (st : CacheState V) (k : Key) :
    (checkMemoryInvalidations now st).memory k =
      match st.expirations k with
      | some e => if e < now then none else st.memory k
      | none => st.memory k := rfl

lemma sweep_exp (now : Nat) (st : CacheState V) (k : Key) :
    (checkMemoryInvalidations now st).expirations k =
      match st.expirations k with
      | some e => if e < now then none else some e
      | none => none := rfl

@[simp] lemma sweep_file (now : Nat) (st : CacheState V) :
    (checkMemoryInvalidations now st).file = st.file := rfl

@[simp] lemma sweep_fileEnabled (now : Nat) (st : CacheState V) :
    (checkMemoryInvalidations now st).fileEnabled = st.fileEnabled := rfl

@[simp] lemma sweep_timeoutMs (now : Nat) (st : CacheState V) :
    (checkMemoryInvalidations now st).timeoutMs = st.timeoutMs := rfl

lemma sweep_mem_of_live (now : Nat) (st : CacheState V) (k : Key) (e : Nat)
    (he : st.expirations k = some e) (hle : now ≤ e) :
    (checkMemoryInvalidations now st).memory k = st.memory k := by
  simp [sweep_mem, he, Nat.not_lt.mpr hle]

lemma sweep_exp_of_live (now : Nat) (st : CacheState V) (k : Key) (e : Nat)
    (he : st.expirations k = some e) (hle : now ≤ e) :
    (checkMemoryInvalidations now st).expirations k = some e := by
  simp [sweep_exp, he, Nat.not_lt.mpr hle]

lemma sweep_mem_of_expired (now : Nat) (st : CacheState V) (k : Key) (e : Nat)
    (he : st.expirations k = some e) (hlt : e < now) :
    (checkMemoryInvalidations now st).memory k = none := by
  simp [sweep_mem, he, hlt]

lemma sweep_exp_of_expired (now : Nat) (st : CacheState V) (k : Key) (e : Nat)
    (he : st.expirations k = some e) (hlt : e < now) :
    (checkMemoryInvalidations now st).expirations k = none := by
  simp [sweep_exp, he, hlt]

lemma sweep_mem_of_none (now : Nat) (st : CacheState V) (k : Key)
    (hm : st.memory k = none) :
    (checkMemoryInvalidations now st).memory k = none := by
  rw [sweep_mem]
  cases h : st.expirations k with
  | none => exact hm
  | some e => by_cases hlt : e < now <;> simp [hlt, hm]

lemma merge_of_no_file (now : Nat) (st : CacheState V) (hf : st.file = none) :
    updateFromFileCache now st = st := by
  simp [updateFromFileCache, hf]

lemma merge_mem (now : Nat) (st : CacheState V) (snap : Snapshot V)
    (hf : st.file = some snap) (k : Key) :
    (updateFromFileCache now st).memory k =
      match snap.expirations k with
      | some e => if importCond now (st.expirations k) e then snap.items k else st.memory k
      | none => st.memory k := by
  simp [updateFromFileCache, hf]

lemma merge_exp (now : Nat) (st : CacheState V) (snap : Snapshot V)
    (hf : st.file = some snap) (k : Key) :
    (updateFromFileCache now st).expirations k =
      match snap.expirations k with
      | some e => if importCond now (st.expirations k) e then some e else st.expirations k
      | none => st.expirations k := by
  simp [updateFromFileCache, hf]

@[simp] lemma merge_file (now : Nat) (st : CacheState V) :
    (updateFromFileCache now st).file = st.file := by
  unfold updateFromFileCache
  cases hf : st.file <;> simp [hf]

@[simp] lemma merge_fileEnabled (now : Nat) (st : CacheState V) :
    (updateFromFileCache now st).fileEnabled = st.fileEnabled := by
  unfold updateFromFileCache
  cases hf : st.file <;> simp [hf]

@[simp] lemma merge_timeoutMs (now : Nat) (st : CacheState V) :
    (updateFromFileCache now st).timeoutMs = st.timeoutMs := by
  unfold updateFromFileCache
  cases hf : st.file <;> simp [hf]

lemma merge_mem_of_absent (now : Nat) (st : CacheState V) (k : Key)
    (hfk : ∀ snap, st.file = some snap → ∀ e, snap.expirations k = some e → e ≤ now) :
    (updateFromFileCache now st).memory k = st.memory k := by
  cases hf : st.file with
  | none => rw [merge_of_no_file now st hf]
  | some snap =>
    rw [merge_mem now st snap hf]
    cases hse : snap.expirations k with
    | none => rfl
    | some e =>
      have hle : e ≤ now := hfk snap hf e hse
      simp [importCond, Nat.not_lt.mpr hle]

lemma merge_exp_of_absent (now : Nat) (st : CacheState V) (k : Key)
    (hfk : ∀ snap, st.file = some snap → ∀ e, snap.expirations k = some e → e ≤ now) :
    (updateFromFileCache now st).expirations k = st.expirations k := by
  cases hf : st.file with
  | none => rw [merge_of_no_file now st hf]
  | some snap =>
    rw [merge_exp now st snap hf]
    cases hse : snap.expirations k with
    | none => rfl
    | some e =>
      have hle : e ≤ now := hfk snap hf e hse
      simp [importCond, Nat.not_lt.mpr hle]

lemma merge_mem_isSome (now : Nat) (st : CacheState V) (k : Key)
    (hFile : FileWF st) (hm : (st.memory k).isSome) :
    ((updateFromFileCache now st).memory k).isSome := by
  cases hf : st.file with
  | none => rw [merge_of_no_file now st hf]; exact hm
  | some snap =>
    rw [merge_mem now st snap hf]
    cases hse : snap.expirations k with
    | none => exact hm
    | some e =>
      by_cases hc : importCond now (st.expirations k) e = true
      · simp only [hc, if_true]
        have : (snap.expirations k).isSome := by rw [hse]; rfl
        exact ((hFile snap hf) k).mpr this
      · simp only [hc, if_false]
        exact hm

@[simp] lemma write_mem (st : CacheState V) :
    (writeToFileCache st).memory = st.memory := by
  unfold writeToFileCache
  by_cases h : st.fileEnabled <;> simp [h]

@[simp] lemma write_exp (st : CacheState V) :
    (writeToFileCache st).expirations = st.expirations := by
  unfold writeToFileCache
  by_cases h : st.fileEnabled <;> simp [h]

@[simp] lemma write_fileEnabled (st : CacheState V) :
    (writeToFileCache st).fileEnabled = st.fileEnabled := by
  unfold writeToFileCache
  by_cases h : st.fileEnabled <;> simp [h]

@[simp] lemma write_timeoutMs (st : CacheState V) :
    (writeToFileCache st).timeoutMs = st.timeoutMs := by
  unfold writeToFileCache
  by_cases h : st.fileEnabled <;> simp [h]

lemma write_file_of_disabled (st : CacheState V) (h : st.fileEnabled = false) :
    (writeToFileCache st).file = st.file := by
  simp [writeToFileCache, h]

lemma write_file_of_enabled (st : CacheState V) (h : st.fileEnabled = true) :
    (writeToFileCache st).file = some ⟨st.memory, st.expirations⟩ := by
  simp [writeToFileCache, h]

@[simp] lemma store_mem_self (now : Nat) (st : CacheState V) (k : Key) (v : V) :
    (store now st k v).memory k = some v := by
  simp [store, mapSet]

@[simp] lemma store_exp_self (now : Nat) (st : CacheState V) (k : Key) (v : V) :
    (store now st k v).expirations k = some (now + st.timeoutMs) := by
  simp [store, mapSet]

@[simp] lemma store_fileEnabled (now : Nat) (st : CacheState V) (k : Key) (v : V) :
    (store now st k v).fileEnabled = st.fileEnabled := by
  simp [store]

@[simp] lemma store_timeoutMs (now : Nat) (st : CacheState V) (k : Key) (v : V) :
    (store now st k v).timeoutMs = st.timeoutMs := by
  simp [store]

end TTCache
namespace TTCache

variable {V : Type} {E : Type}

lemma wf_sweep (now : Nat) (st : CacheState V) (h : CacheWF st) :
    CacheWF (checkMemoryInvalidations now st) := by
  intro k
  rw [sweep_mem, sweep_exp]
  cases he : st.expirations k with
  | none =>
    have := (h k)
    rw [he] at this
    simpa using this
  | some e =>
    by_cases hlt : e < now
    · simp [hlt]
    · have := (h k)
      rw [he] at this
      simpa [hlt] using this

lemma filewf_sweep (now : Nat) (st : CacheState V) (h : FileWF st) :
    FileWF (checkMemoryInvalidations now st) := by
  intro snap hf
  exact h snap (by rwa [sweep_file] at hf)

lemma wf_merge (now : Nat) (st : CacheState V) (h : CacheWF st) (hFile : FileWF st) :
    CacheWF (updateFromFileCache now st) := by
  intro k
  cases hf : st.file with
  | none => rw [merge_of_no_file now st hf]; exact h k
  | some snap =>
    rw [merge_mem now st snap hf, merge_exp now st snap hf]
    cases hse : snap.expirations k with
    | none => exact h k
    | some e =>
      by_cases hc : importCond now (st.expirations k) e = true
      · simp only [hc, if_true]
        have hsnap := (hFile snap hf) k
        rw [hse] at hsnap
        simpa using hsnap
      · simp only [hc, if_false]
        exact h k

lemma filewf_merge (now : Nat) (st : CacheState V) (h : FileWF st) :
    FileWF (updateFromFileCache now st) := by
  intro snap hf
  exact h snap (by rwa [merge_file] at hf)

lemma wf_write (st : CacheState V) (h : CacheWF st) : CacheWF (writeToFileCache st) := by
  intro k
  rw [write_mem, write_exp]
  exact h k

lemma filewf_write (st : CacheState V) (h : CacheWF st) (hFile : FileWF st) :
    FileWF (writeToFileCache st) := by
  intro snap hf
  by_cases he : st.fileEnabled = true
  · rw [write_file_of_enabled st he] at hf
    cases hf
    exact h
  · rw [write_file_of_disabled st (by simpa using he)] at hf
    exact hFile snap hf

lemma wf_setBoth (st : CacheState V) (k : Key) (v : V) (e : Nat) (h : CacheWF st) :
    CacheWF { st with memory := mapSet st.memory k v, expirations := mapSet st.expirations k e } := by
  intro k2
  simp only [mapSet]
  by_cases hk : k2 = k
  · simp [hk]
  · simp only [hk, if_false]
    exact h k2

lemma wf_store (now : Nat) (st : CacheState V) (k : Key) (v : V)
    (h : CacheWF st) (hFile : FileWF st) : CacheWF (store now st k v) := by
  unfold store
  exact wf_write _ (wf_setBoth _ k v _ (wf_merge now st h hFile))

lemma filewf_store (now : Nat) (st : CacheState V) (k : Key) (v : V)
    (h : CacheWF st) (hFile : FileWF st) : FileWF (store now st k v) := by
  unfold store
  exact filewf_write _ (wf_setBoth _ k v _ (wf_merge now st h hFile))
    (filewf_merge now st hFile)

lemma inv_sweep (now : Nat) (st : CacheState V) (h : Inv st) :
    Inv (checkMemoryInvalidations now st) :=
  ⟨wf_sweep now st h.1, filewf_sweep now st h.2⟩

lemma inv_merge (now : Nat) (st : CacheState V) (h : Inv st) :
    Inv (updateFromFileCache now st) :=
  ⟨wf_merge now st h.1 h.2, filewf_merge now st h.2⟩

lemma inv_store (now : Nat) (st : CacheState V) (k : Key) (v : V) (h : Inv st) :
    Inv (store now st k v) :=
  ⟨wf_store now st k v h.1 h.2, filewf_store now st k v h.1 h.2⟩

lemma inv_innerGet (now : Nat) (st : CacheState V) (k : Key) (c : V) (h : Inv st) :
    Inv (innerGet now st k c).state := by
  unfold innerGet
  have h1 := inv_sweep now st h
  by_cases hm1 : ((checkMemoryInvalidations now st).memory k).isSome = true
  · simp only [hm1, if_true]
    by_cases hm2 : ((checkMemoryInvalidations now st).memory k).isSome = true
    · simpa [hm2] using h1
    · exact absurd hm1 hm2
  · simp only [hm1, if_false]
    have h2 := inv_merge now _ h1
    by_cases hm2 :
        ((updateFromFileCache now (checkMemoryInvalidations now st)).memory k).isSome = true
    · simpa [hm2] using h2
    · simpa [hm2] using inv_store now _ k c h2

lemma inv_invalidate (now : Nat) (st : CacheState V) (k : Key) (h : Inv st) :
    Inv (invalidate now st k) := by
  unfold invalidate
  have h1 := inv_merge now st h
  by_cases he : ((updateFromFileCache now st).expirations k).isSome = true
  · simp only [he, if_true]
    refine ⟨wf_write _ ?_, filewf_write _ ?_ h1.2⟩ <;>
      · intro k2
        simp only [mapErase]
        by_cases hk : k2 = k
        · simp [hk]
        · simp only [hk, if_false]
          exact h1.1 k2
  · simpa [he] using h1

lemma inv_flush (st : CacheState V) (h : Inv st) : Inv (flush st) := by
  unfold flush
  have hwf : CacheWF { st with memory := fun _ => (none : Option V), expirations := fun _ => (none : Option Nat) } := by
    intro k
    simp
  exact ⟨wf_write _ hwf, filewf_write _ hwf (fun snap hf => h.2 snap hf)⟩

lemma inv_init (fe : Bool) (tm : Nat) (disk : Option (Snapshot V))
    (hdisk : ∀ snap, disk = some snap → SnapWF snap) :
    Inv (initState fe tm disk) := by
  constructor
  · intro k
    simp [initState]
  · intro snap hf
    simp only [initState] at hf
    by_cases hfe : fe = true
    · rw [if_pos hfe] at hf
      exact hdisk snap hf
    · rw [if_neg hfe] at hf
      cases hf

end TTCache
namespace TTCache

variable {V : Type} {E : Type}

lemma innerGet_hit (now : Nat) (st : CacheState V) (k : Key) (c v : V) (e : Nat)
    (hm : st.memory k = some v) (he : st.expirations k = some e) (hle : now ≤ e) :
    innerGet now st k c = ⟨some v, checkMemoryInvalidations now st, false⟩ := by
  have h1 : (checkMemoryInvalidations now st).memory k = some v :=
    (sweep_mem_of_live now st k e he hle).trans hm
  unfold innerGet
  simp [h1]

lemma innerGet_fresh (now : Nat) (st : CacheState V) (k : Key) (c : V)
    (hm : st.memory k = none)
    (hfk : ∀ snap, st.file = some snap → snap.expirations k = none) :
    innerGet now st k c =
      ⟨some c, store now (updateFromFileCache now (checkMemoryInvalidations now st)) k c,
        true⟩ := by
  have h1 : (checkMemoryInvalidations now st).memory k = none :=
    sweep_mem_of_none now st k hm
  have hfk1 : ∀ snap, (checkMemoryInvalidations now st).file = some snap →
      ∀ e, snap.expirations k = some e → e ≤ now := by
    intro snap hf e hse
    rw [sweep_file] at hf
    rw [hfk snap hf] at hse
    cases hse
  have h2 : (updateFromFileCache now (checkMemoryInvalidations now st)).memory k = none := by
    rw [merge_mem_of_absent now _ k hfk1]
    exact h1
  unfold innerGet
  simp [h1, h2]

lemma innerGet_expired (now : Nat) (st : CacheState V) (k : Key) (c : V) (e : Nat)
    (he : st.expirations k = some e) (hlt : e < now)
    (hfk : ∀ snap, st.file = some snap → ∀ e2, snap.expirations k = some e2 → e2 ≤ now) :
    innerGet now st k c =
      ⟨some c, store now (updateFromFileCache now (checkMemoryInvalidations now st)) k c,
        true⟩ := by
  have h1 : (checkMemoryInvalidations now st).memory k = none :=
    sweep_mem_of_expired now st k e he hlt
  have hfk1 : ∀ snap, (checkMemoryInvalidations now st).file = some snap →
      ∀ e2, snap.expirations k = some e2 → e2 ≤ now := by
    intro snap hf
    rw [sweep_file] at hf
    exact hfk snap hf
  have h2 : (updateFromFileCache now (checkMemoryInvalidations now st)).memory k = none := by
    rw [merge_mem_of_absent now _ k hfk1]
    exact h1
  unfold innerGet
  simp [h1, h2]

lemma store_file_of_disabled (now : Nat) (st : CacheState V) (k : Key) (v : V)
    (hd : st.fileEnabled = false) : (store now st k v).file = st.file := by
  unfold store
  rw [write_file_of_disabled _ (by simpa using hd)]
  simp

lemma store_file_of_enabled (now : Nat) (st : CacheState V) (k : Key) (v : V)
    (hd : st.fileEnabled = true) :
    ∃ snap, (store now st k v).file = some snap ∧
      snap.expirations k = some (now + st.timeoutMs) ∧ snap.items k = some v := by
  unfold store
  rw [write_file_of_enabled _ (by simpa using hd)]
  refine ⟨_, rfl, ?_, ?_⟩ <;> simp [mapSet]

lemma runGets_hits (k : Key) (c v : V) (e : Nat) (ts : List Nat) :
    ∀ (s : CacheState V), s.memory k = some v → s.expirations k = some e →
      (∀ t ∈ ts, t ≤ e) →
      (runGets s k c ts).invocations = 0 ∧
        (runGets s k c ts).state.memory k = some v ∧
        (runGets s k c ts).state.expirations k = some e ∧
        ∀ r ∈ (runGets s k c ts).returns, r = some v := by
  induction ts with
  | nil =>
    intro s hm he _
    refine ⟨rfl, hm, he, ?_⟩
    intro r hr
    cases hr
  | cons t ts ih =>
    intro s hm he hts
    have ht : t ≤ e := hts t (List.mem_cons_self t ts)
    have hget := innerGet_hit t s k c v e hm he ht
    have hm1 : (checkMemoryInvalidations t s).memory k = some v :=
      (sweep_mem_of_live t s k e he ht).trans hm
    have he1 : (checkMemoryInvalidations t s).expirations k = some e :=
      sweep_exp_of_live t s k e he ht
    have hrest := ih (checkMemoryInvalidations t s) hm1 he1
      (fun t2 ht2 => hts t2 (List.mem_cons_of_mem t ht2))
    simp only [runGets, hget]
    refine ⟨by simpa using hrest.1, hrest.2.1, hrest.2.2.1, ?_⟩
    intro r hr
    rcases List.mem_cons.mp hr with h | h
    · exact h
    · exact hrest.2.2.2 r h

lemma innerGet_value_live (now : Nat) (st : CacheState V) (k : Key) (c v : V)
    (hWF : CacheWF st)
    (_hv : (innerGet now st k c).value = some v) :
    ∃ e, (innerGet now st k c).state.expirations k = some e ∧ now ≤ e := by
  by_cases h1 : ((checkMemoryInvalidations now st).memory k).isSome = true
  · have hgoal : innerGet now st k c =
        ⟨(checkMemoryInvalidations now st).memory k, checkMemoryInvalidations now st, false⟩ := by
      unfold innerGet
      simp [h1]
    rw [hgoal]
    cases he : st.expirations k with
    | none =>
      exfalso
      have hmnone : st.memory k = none := by
        have := hWF k
        rw [he] at this
        simpa using this
      rw [sweep_mem_of_none now st k hmnone] at h1
      cases h1
    | some e =>
      by_cases hlt : e < now
      · exfalso
        rw [sweep_mem_of_expired now st k e he hlt] at h1
        cases h1
      · exact ⟨e, sweep_exp_of_live now st k e he (Nat.not_lt.mp hlt), Nat.not_lt.mp hlt⟩
  · set st1 := checkMemoryInvalidations now st with hst1
    by_cases h2 : ((updateFromFileCache now st1).memory k).isSome = true
    · have hgoal : innerGet now st k c =
          ⟨(updateFromFileCache now st1).memory k, updateFromFileCache now st1, false⟩ := by
        unfold innerGet
        simp [h1, h2]
      rw [hgoal]
      cases hf : st1.file with
      | none =>
        exfalso
        rw [merge_of_no_file now st1 hf] at h2
        exact h1 h2
      | some snap =>
        rw [merge_mem now st1 snap hf k] at h2
        rw [merge_exp now st1 snap hf k]
        cases hse : snap.expirations k with
        | none =>
          exfalso
          rw [hse] at h2
          exact h1 h2
        | some e =>
          rw [hse] at h2
          by_cases hc : importCond now (st1.expirations k) e = true
          · refine ⟨e, by simp [hse, hc], ?_⟩
            have := hc
            unfold importCond at this
            have hnow : decide (now < e) = true := by
              cases hnow2 : decide (now < e) with
              | false => rw [hnow2] at this; simp at this
              | true => rfl
            exact Nat.le_of_lt (of_decide_eq_true hnow)
          · exfalso
            have h2b : (if importCond now (st1.expirations k) e = true
                then snap.items k else st1.memory k).isSome = true := h2
            rw [if_neg hc] at h2b
            exact h1 h2b
    · have hgoal : innerGet now st k c =
          ⟨(store now (updateFromFileCache now st1) k c).memory k,
            store now (updateFromFileCache now st1) k c, true⟩ := by
        unfold innerGet
        simp [h1, h2]
      rw [hgoal]
      refine ⟨now + (updateFromFileCache now st1).timeoutMs, store_exp_self _ _ _ _, ?_⟩
      exact Nat.le_add_right now _

end TTCache
namespace TTCache

lemma importCond_iff (now : Nat) (le : Option Nat) (e : Nat) :
    importCond now le e = true ↔
      now < e ∧ (le = none ∨ ∃ l, le = some l ∧ l < e) := by
  unfold importCond
  cases le with
  | none => simp
  | some l => simp

/-- C1: during `_update_from_file_cache`, a snapshot entry for key `k` is
imported into the in-memory store exactly when the snapshot expiration is
strictly in the future and the local store either has no expiration for `k`
or a strictly earlier one; at every other key (and at `k` when the condition
fails) both in-memory maps are left unchanged. -/
theorem claim1_merge_import_iff (V : Type) (now : Nat) (st : CacheState V)
    (snap : Snapshot V) (k : Key) (hf : st.file = some snap) :
    ((∃ e, snap.expirations k = some e ∧ now < e ∧
        (st.expirations k = none ∨ ∃ le, st.expirations k = some le ∧ le < e)) →
      ∃ e, snap.expirations k = some e ∧
        (updateFromFileCache now st).memory k = snap.items k ∧
        (updateFromFileCache now st).expirations k = some e) ∧
    ((¬ ∃ e, snap.expirations k = some e ∧ now < e ∧
        (st.expirations k = none ∨ ∃ le, st.expirations k = some le ∧ le < e)) →
      (updateFromFileCache now st).memory k = st.memory k ∧
      (updateFromFileCache now st).expirations k = st.expirations k) := by
  constructor
  · rintro ⟨e, hse, hnow, hloc⟩
    have hc : importCond now (st.expirations k) e = true :=
      (importCond_iff now (st.expirations k) e).mpr ⟨hnow, hloc⟩
    refine ⟨e, hse, ?_, ?_⟩
    · rw [merge_mem now st snap hf k, hse]
      simp [hc]
    · rw [merge_exp now st snap hf k, hse]
      simp [hc]
  · intro hneg
    cases hse : snap.expirations k with
    | none =>
      constructor
      · rw [merge_mem now st snap hf k, hse]
      · rw [merge_exp now st snap hf k, hse]
    | some e =>
      have hc : importCond now (st.expirations k) e = false := by
        cases hc2 : importCond now (st.expirations k) e with
        | false => rfl
        | true =>
          exfalso
          rcases (importCond_iff now (st.expirations k) e).mp hc2 with ⟨hnow, hloc⟩
          exact hneg ⟨e, hse, hnow, hloc⟩
      constructor
      · rw [merge_mem now st snap hf k, hse]
        simp [hc]
      · rw [merge_exp now st snap hf k, hse]
        simp [hc]

/-- Witness for C1 at a concrete persisted state: the snapshot entry for key
"a" expires at 20, which is after now = 10, and the local store is empty, so
the entry is imported. -/
theorem claim1_witness :
    sampleFileState.file = some sampleSnap ∧
      (updateFromFileCache 10 sampleFileState).memory "a" = sampleSnap.items "a" ∧
      (updateFromFileCache 10 sampleFileState).expirations "a" = some 20 := by
  have h := (claim1_merge_import_iff Nat 10 sampleFileState sampleSnap "a" rfl).1
  have hc : ∃ e, sampleSnap.expirations "a" = some e ∧ 10 < e ∧
      (sampleFileState.expirations "a" = none ∨
        ∃ le, sampleFileState.expirations "a" = some le ∧ le < e) :=
    ⟨20, by decide, by decide, Or.inl rfl⟩
  rcases h hc with ⟨e, hse, hmem, hexp⟩
  have he : e = 20 := by
    have : some e = some 20 := by rw [← hse]; decide
    injection this
  exact ⟨rfl, hmem, by rw [hexp, he]⟩

/-- C2: on a memory-only instance, a run of get calls for one derived key,
the first at time `t0` on a state with no entry for the key and the rest at
times before the stored expiration `t0 + timeout`, invokes the target
exactly once, and every call returns the target result. -/
theorem claim2_idempotent_hit (V : Type) (st : CacheState V) (fnName : String)
    (parts : List String) (compute : V) (t0 : Nat) (ts : List Nat)
    (_hfe : st.fileEnabled = false) (hfile : st.file = none)
    (hm : st.memory (getItemKey fnName parts) = none)
    (hts : ∀ t ∈ ts, t < t0 + st.timeoutMs) :
    (runGets st (getItemKey fnName parts) compute (t0 :: ts)).invocations = 1 ∧
      ∀ r ∈ (runGets st (getItemKey fnName parts) compute (t0 :: ts)).returns,
        r = some compute := by
  set k := getItemKey fnName parts with hk
  have hfk : ∀ snap, st.file = some snap → snap.expirations k = none := by
    intro snap hf
    rw [hfile] at hf
    cases hf
  have hget := innerGet_fresh t0 st k compute hm hfk
  set s1 := store t0 (updateFromFileCache t0 (checkMemoryInvalidations t0 st)) k compute
    with hs1
  have hsm : s1.memory k = some compute := store_mem_self _ _ _ _
  have hse : s1.expirations k = some (t0 + st.timeoutMs) := by
    rw [hs1, store_exp_self]
    simp
  have hrest := runGets_hits k compute compute (t0 + st.timeoutMs) ts s1 hsm hse
    (fun t ht => Nat.le_of_lt (hts t ht))
  simp only [runGets, hget]
  constructor
  · simpa using hrest.1
  · intro r hr
    rcases List.mem_cons.mp hr with h | h
    · simpa using h
    · exact hrest.2.2.2 r h

/-- Witness for C2: a fresh memory-only instance, one get at time 0 and two
more at times 10 and 40, all within the 50 ms timeout: one invocation, and
every call returns the computed value 7. -/
theorem claim2_witness :
    sampleMemState.fileEnabled = false ∧ sampleMemState.file = none ∧
      sampleMemState.memory (getItemKey "foo" ["1"]) = none ∧
      (∀ t ∈ [10, 40], t < 0 + sampleMemState.timeoutMs) ∧
      ((runGets sampleMemState (getItemKey "foo" ["1"]) 7 [0, 10, 40]).invocations = 1 ∧
        ∀ r ∈ (runGets sampleMemState (getItemKey "foo" ["1"]) 7 [0, 10, 40]).returns,
          r = some 7) :=
  ⟨rfl, rfl, rfl, by decide,
    claim2_idempotent_hit Nat sampleMemState "foo" ["1"] 7 0 [10, 40] rfl rfl rfl
      (by decide)⟩

/-- C5 (the code as written): supplying `with_cache` only a cache instance,
with `name`, `file` and `timeout_ms` left at their declared defaults `None`,
`False` and `_MILLIS_PER_HOUR`, raises ValueError, because `file` and
`timeout_ms` are compared against `None` and their defaults are not `None`;
supplying neither a name nor a cache raises TypeError. -/
theorem claim5_with_cache_lone_cache_rejected :
    withCacheValidate (V := Nat) none (some false) (some millisPerHour)
        (some (initState false millisPerHour none)) =
      Except.error WithCacheError.valueError ∧
    withCacheValidate (V := Nat) none none none none =
      Except.error WithCacheError.typeError :=
  ⟨rfl, rfl⟩

/-- C9: a callable produced by the decorator binds its call against a
`*args`-only signature, so any keyword argument raises a TypeError and is
never forwarded, while a purely positional call forwards the arguments to
`get_multi` with no keyword arguments; the underlying `get_multi` itself
does accept keyword names and values, folding them into the derived key. -/
theorem claim9_wrapper_positional_only (V : Type) (now : Nat) (st : CacheState V)
    (fnName : String) (compute : V) (args : List String) :
    (∀ (kn kv : String) (rest : List (String × String)),
        cacheWrappedFunction now st fnName compute args ((kn, kv) :: rest) =
          Except.error
            ("TypeError: cache_wrapped_function got an unexpected keyword argument " ++ kn)) ∧
    cacheWrappedFunction now st fnName compute args [] =
      Except.ok (getMulti now st fnName args [] [] compute) ∧
    ∀ (kwNames kwValues : List String),
      getMulti now st fnName args kwNames kwValues compute =
        innerGet now st (getItemKey fnName (args ++ kwNames ++ kwValues)) compute :=
  ⟨fun _ _ _ => rfl, rfl, fun _ _ => rfl⟩

end TTCache
namespace TTCache

lemma cacheInit_ok_iff (V : Type) (name : String) (fe : Bool) (tm : Nat)
    (disk : Option (Snapshot V)) :
    exceptIsOk (cacheInit name fe tm disk) = cacheNameOk name := by
  unfold cacheInit
  by_cases h : cacheNameOk name = true
  · simp [h, exceptIsOk]
  · simp [h, exceptIsOk]

lemma matchStarDollar_iff (l : List Char) :
    matchStarDollar l = true ↔
      l.all isAlnumAscii = true ∨
        ∃ t, l = t ++ ['\n'] ∧ t.all isAlnumAscii = true := by
  induction l with
  | nil => simp [matchStarDollar, dollarMatches]
  | cons c rest ih =>
    simp only [matchStarDollar, Bool.or_eq_true, Bool.and_eq_true]
    constructor
    · rintro (hd | ⟨hc, hstar⟩)
      · have hcr : rest = [] ∧ c = '\n' := by
          cases rest with
          | nil => simpa [dollarMatches] using hd
          | cons d ds => simp [dollarMatches] at hd
        rcases hcr with ⟨rfl, rfl⟩
        right
        exact ⟨[], rfl, rfl⟩
      · rcases ih.mp hstar with hall | ⟨t, rfl, ht⟩
        · left
          simp [List.all_cons, hc, hall]
        · right
          refine ⟨c :: t, rfl, ?_⟩
          simp [List.all_cons, hc, ht]
    · rintro (hall | ⟨t, heq, ht⟩)
      · rw [List.all_cons, Bool.and_eq_true] at hall
        exact Or.inr ⟨hall.1, ih.mpr (Or.inl hall.2)⟩
      · cases t with
        | nil =>
          simp only [List.nil_append] at heq
          injection heq with h1 h2
          subst h1
          subst h2
          left
          simp [dollarMatches]
        | cons d ds =>
          rw [List.cons_append] at heq
          injection heq with h1 h2
          subst h1
          rw [List.all_cons, Bool.and_eq_true] at ht
          exact Or.inr ⟨ht.1, ih.mpr (Or.inr ⟨ds, h2, ht.2⟩)⟩

lemma cacheNameOk_iff (name : String) :
    cacheNameOk name = true ↔
      (name.data ≠ [] ∧ name.data.all isAlnumAscii = true) ∨
        ∃ t, name.data = t ++ ['\n'] ∧ t ≠ [] ∧ t.all isAlnumAscii = true := by
  unfold cacheNameOk
  cases hd : name.data with
  | nil => simp
  | cons c rest =>
    rw [Bool.and_eq_true]
    constructor
    · rintro ⟨hc, hstar⟩
      rcases (matchStarDollar_iff rest).mp hstar with hall | ⟨t, rfl, ht⟩
      · left
        refine ⟨by simp, ?_⟩
        simp [List.all_cons, hc, hall]
      · right
        refine ⟨c :: t, rfl, by simp, ?_⟩
        simp [List.all_cons, hc, ht]
    · rintro (⟨_, hall⟩ | ⟨t, heq, hne, ht⟩)
      · rw [List.all_cons, Bool.and_eq_true] at hall
        exact ⟨hall.1, (matchStarDollar_iff rest).mpr (Or.inl hall.2)⟩
      · cases t with
        | nil => exact absurd rfl hne
        | cons d ds =>
          rw [List.cons_append] at heq
          injection heq with h1 h2
          subst h1
          rw [List.all_cons, Bool.and_eq_true] at ht
          exact ⟨ht.1, (matchStarDollar_iff rest).mpr (Or.inr ⟨ds, h2, ht.2⟩)⟩

/-- C10 counterexample: `re.match` lets `$` match just before one trailing
newline, so the name containing a final newline character is accepted by the
constructor even though it is not a string of letters and digits only. -/
theorem claim10_counterexample :
    exceptIsOk (cacheInit (V := Nat) "abc\n" false millisPerHour none) = true ∧
      ("abc\n").data.all isAlnumAscii = false := by
  constructor
  · rw [cacheInit_ok_iff]
    decide
  · decide

/-- C10 amended: the constructor succeeds exactly when the name is a
non-empty string of ASCII letters and digits, optionally followed by one
trailing newline (a consequence of Python `$` semantics in `re.match`); in
particular the empty string is rejected. -/
theorem claim10_name_validation_amended (V : Type) (name : String) (fe : Bool)
    (tm : Nat) (disk : Option (Snapshot V)) :
    exceptIsOk (cacheInit name fe tm disk) = true ↔
      (name.data ≠ [] ∧ name.data.all isAlnumAscii = true) ∨
        ∃ t, name.data = t ++ ['\n'] ∧ t ≠ [] ∧ t.all isAlnumAscii = true := by
  rw [cacheInit_ok_iff]
  exact cacheNameOk_iff name

end TTCache
namespace TTCache

/-- C3: a key computed at time `t0` on a state that holds the key nowhere,
then requested again at a time strictly past the stored expiration
`t0 + timeout`, triggers exactly one additional target invocation and a
fresh entry expiring at `t1 + timeout`; and whenever a get returns a value,
the expiration recorded for the key in the resulting state is not in the
past. -/
theorem claim3_expiry_correctness (V : Type) :
    (∀ (st : CacheState V) (k : Key) (c : V) (t0 t1 : Nat),
      st.memory k = none →
      (∀ snap, st.file = some snap → snap.expirations k = none) →
      t0 + st.timeoutMs < t1 →
      (innerGet t0 st k c).invoked = true ∧
        (innerGet t1 (innerGet t0 st k c).state k c).invoked = true ∧
        (innerGet t1 (innerGet t0 st k c).state k c).value = some c ∧
        (innerGet t1 (innerGet t0 st k c).state k c).state.memory k = some c ∧
        (innerGet t1 (innerGet t0 st k c).state k c).state.expirations k =
          some (t1 + st.timeoutMs)) ∧
    (∀ (st : CacheState V) (k : Key) (c v : V) (now : Nat),
      CacheWF st →
      (innerGet now st k c).value = some v →
      ∃ e, (innerGet now st k c).state.expirations k = some e ∧ now ≤ e) := by
  constructor
  · intro st k c t0 t1 hm hfk hlt
    have hget1 := innerGet_fresh t0 st k c hm hfk
    set s1 := store t0 (updateFromFileCache t0 (checkMemoryInvalidations t0 st)) k c
      with hs1
    have hstate1 : (innerGet t0 st k c).state = s1 := by rw [hget1]
    have hinv1 : (innerGet t0 st k c).invoked = true := by rw [hget1]
    have htm1 : s1.timeoutMs = st.timeoutMs := by
      rw [hs1, store_timeoutMs]
      simp
    have hse1 : s1.expirations k = some (t0 + st.timeoutMs) := by
      rw [hs1, store_exp_self]
      simp
    have hfk2 : ∀ snap, s1.file = some snap →
        ∀ e2, snap.expirations k = some e2 → e2 ≤ t1 := by
      intro snap hf e2 hse2
      by_cases hfe : st.fileEnabled = true
      · have hfe2 : (updateFromFileCache t0 (checkMemoryInvalidations t0 st)).fileEnabled
            = true := by simp [hfe]
        rcases store_file_of_enabled t0 _ k c hfe2 with ⟨snap2, hf2, hsnapexp, _⟩
        rw [hs1] at hf
        rw [hf2] at hf
        injection hf with hf
        subst hf
        rw [hsnapexp] at hse2
        injection hse2 with hse2
        subst hse2
        have : (updateFromFileCache t0 (checkMemoryInvalidations t0 st)).timeoutMs
            = st.timeoutMs := by simp
        rw [this]
        exact Nat.le_of_lt hlt
      · have hfe2 : (updateFromFileCache t0 (checkMemoryInvalidations t0 st)).fileEnabled
            = false := by simp [Bool.eq_false_iff.mpr hfe]
        rw [hs1, store_file_of_disabled t0 _ k c hfe2] at hf
        rw [merge_file, sweep_file] at hf
        rw [hfk snap hf] at hse2
        cases hse2
    have hget2 := innerGet_expired t1 s1 k c (t0 + st.timeoutMs) hse1 hlt hfk2
    have htm2 : (updateFromFileCache t1 (checkMemoryInvalidations t1 s1)).timeoutMs
        = st.timeoutMs := by
      simp [htm1]
    refine ⟨hinv1, ?_, ?_, ?_, ?_⟩
    · rw [hstate1, hget2]
    · rw [hstate1, hget2]
    · rw [hstate1, hget2]
      simp
    · rw [hstate1, hget2]
      show (store t1 (updateFromFileCache t1 (checkMemoryInvalidations t1 s1)) k c).expirations k
        = some (t1 + st.timeoutMs)
      rw [store_exp_self, htm2]
  · intro st k c v now hWF hv
    exact innerGet_value_live now st k c v hWF hv

/-- Witness for C3 on a fresh memory-only instance with timeout 50: a get at
time 0 followed by a get at time 60 recomputes and stores a fresh entry, and
a concrete returning get leaves a not-yet-past expiration. -/
theorem claim3_witness :
    (sampleMemState.memory "k" = none ∧
      (∀ snap, sampleMemState.file = some snap → snap.expirations "k" = none) ∧
      0 + sampleMemState.timeoutMs < 60 ∧
      (innerGet 0 sampleMemState "k" (7 : Nat)).invoked = true ∧
      (innerGet 60 (innerGet 0 sampleMemState "k" 7).state "k" 7).invoked = true ∧
      (innerGet 60 (innerGet 0 sampleMemState "k" 7).state "k" 7).value = some 7 ∧
      (innerGet 60 (innerGet 0 sampleMemState "k" 7).state "k" 7).state.expirations "k" =
        some (60 + sampleMemState.timeoutMs)) ∧
    (CacheWF sampleMemState ∧
      (innerGet 3 sampleMemState "k" (7 : Nat)).value = some 7 ∧
      ∃ e, (innerGet 3 sampleMemState "k" 7).state.expirations "k" = some e ∧ 3 ≤ e) := by
  have hwf : CacheWF sampleMemState := fun _ => Iff.rfl
  have hfk : ∀ snap, sampleMemState.file = some snap → snap.expirations "k" = none :=
    fun snap hf => Option.noConfusion hf
  have h1 := (claim3_expiry_correctness Nat).1 sampleMemState "k" 7 0 60 rfl hfk
    (by decide)
  have h2 := (claim3_expiry_correctness Nat).2 sampleMemState "k" 7 7 3 hwf rfl
  exact ⟨⟨rfl, hfk, by decide, h1.1, h1.2.1, h1.2.2.1, h1.2.2.2.2⟩, ⟨hwf, rfl, h2⟩⟩

end TTCache
namespace TTCache

variable {A : Type}

lemma list_get?_append_lt (l l2 : List A) (n : Nat) (h : n < l.length) :
    (l ++ l2).get? n = l.get? n := by
  induction l generalizing n with
  | nil => cases h
  | cons a t ih =>
    cases n with
    | zero => rfl
    | succ m => exact ih m (Nat.lt_of_succ_lt_succ h)

lemma list_get?_append_length (l : List A) (a : A) :
    (l ++ [a]).get? l.length = some a := by
  induction l with
  | nil => rfl
  | cons b t ih => exact ih

lemma list_get?_lt (l : List A) (n : Nat) (a : A) (h : l.get? n = some a) :
    n < l.length := by
  induction l generalizing n with
  | nil => cases h
  | cons b t ih =>
    cases n with
    | zero => exact Nat.succ_pos _
    | succ m => exact Nat.succ_lt_succ (ih m h)

lemma list_get?_set_ne (l : List A) (m n : Nat) (a : A) (h : m ≠ n) :
    (l.set m a).get? n = l.get? n := by
  induction l generalizing m n with
  | nil => rfl
  | cons b t ih =>
    cases m with
    | zero =>
      cases n with
      | zero => exact absurd rfl h
      | succ n2 => rfl
    | succ m2 =>
      cases n with
      | zero => rfl
      | succ n2 => exact ih m2 n2 (fun he => h (by rw [he]))

/-- C4: on a hit, get returns a deepcopy at a fresh heap address distinct
from the stored one; mutating the returned object does not change the
object at the stored address, the cache still maps the key to the stored
address, and a second get returns an object equal to the originally stored
value. -/
theorem claim4_return_isolation (V : Type) (st : CacheState Nat) (h : List V)
    (k : Key) (a e : Nat) (v w : V) (ca now now2 : Nat)
    (hm : st.memory k = some a) (he : st.expirations k = some e)
    (hn1 : now ≤ e) (hn2 : now2 ≤ e) (hv : h.get? a = some v) :
    ∃ c h1, innerGetRef now st h k ca = (some c, checkMemoryInvalidations now st, h1) ∧
      c ≠ a ∧
      h1.get? c = some v ∧
      (heapWrite h1 c w).get? a = some v ∧
      (checkMemoryInvalidations now st).memory k = some a ∧
      ∃ c2 st2 h3,
        innerGetRef now2 (checkMemoryInvalidations now st) (heapWrite h1 c w) k ca =
          (some c2, st2, h3) ∧ h3.get? c2 = some v := by
  have ha : a < h.length := list_get?_lt h a v hv
  have hget := innerGet_hit now st k ca a e hm he hn1
  have hcopy : heapDeepcopy h a = (h ++ [v], some h.length) := by
    unfold heapDeepcopy
    rw [hv]
  have hres : innerGetRef now st h k ca =
      (some h.length, checkMemoryInvalidations now st, h ++ [v]) := by
    unfold innerGetRef
    rw [hget]
    simp [hcopy]
  refine ⟨h.length, h ++ [v], hres, ?_, ?_, ?_, ?_, ?_⟩
  · exact fun hcontra => absurd (hcontra ▸ ha) (Nat.lt_irrefl _)
  · exact list_get?_append_length h v
  · unfold heapWrite
    rw [list_get?_set_ne _ _ _ _ (Nat.ne_of_gt ha)]
    rw [list_get?_append_lt h [v] a ha]
    exact hv
  · exact (sweep_mem_of_live now st k e he hn1).trans hm
  · set s1 := checkMemoryInvalidations now st with hs1
    have hm2 : s1.memory k = some a := (sweep_mem_of_live now st k e he hn1).trans hm
    have he2 : s1.expirations k = some e := sweep_exp_of_live now st k e he hn1
    have hget2 := innerGet_hit now2 s1 k ca a e hm2 he2 hn2
    set h2 := heapWrite (h ++ [v]) h.length w with hh2
    have hv2 : h2.get? a = some v := by
      rw [hh2]
      unfold heapWrite
      rw [list_get?_set_ne _ _ _ _ (Nat.ne_of_gt ha)]
      rw [list_get?_append_lt h [v] a ha]
      exact hv
    have hcopy2 : heapDeepcopy h2 a = (h2 ++ [v], some h2.length) := by
      unfold heapDeepcopy
      rw [hv2]
    refine ⟨h2.length, checkMemoryInvalidations now2 s1, h2 ++ [v], ?_, ?_⟩
    · unfold innerGetRef
      rw [hget2]
      simp [hcopy2]
    · exact list_get?_append_length h2 v

/-- Witness for C4 at a concrete state: key "k" stored at address 0 holding
value 11 in a one-object heap, expiration 20, reads at times 5 and 9,
mutation writes 99. -/
theorem claim4_witness :
    (({ memory := fun q => if q = "k" then some 0 else none,
        expirations := fun q => if q = "k" then some 20 else none,
        fileEnabled := false, file := none, timeoutMs := 50 } : CacheState Nat).memory "k"
        = some 0) ∧
      (∃ c h1,
        innerGetRef 5
            { memory := fun q => if q = "k" then some 0 else none,
              expirations := fun q => if q = "k" then some 20 else none,
              fileEnabled := false, file := none, timeoutMs := 50 } [(11 : Nat)] "k" 0 =
          (some c,
            checkMemoryInvalidations 5
              { memory := fun q => if q = "k" then some 0 else none,
                expirations := fun q => if q = "k" then some 20 else none,
                fileEnabled := false, file := none, timeoutMs := 50 }, h1) ∧
        c ≠ 0 ∧
        h1.get? c = some 11 ∧
        (heapWrite h1 c 99).get? 0 = some 11 ∧
        (checkMemoryInvalidations 5
            { memory := fun q => if q = "k" then some 0 else none,
              expirations := fun q => if q = "k" then some 20 else none,
              fileEnabled := false, file := none, timeoutMs := 50 }).memory "k" = some 0 ∧
        ∃ c2 st2 h3,
          innerGetRef 9
              (checkMemoryInvalidations 5
                { memory := fun q => if q = "k" then some 0 else none,
                  expirations := fun q => if q = "k" then some 20 else none,
                  fileEnabled := false, file := none, timeoutMs := 50 })
              (heapWrite h1 c 99) "k" 0 =
            (some c2, st2, h3) ∧ h3.get? c2 = some 11) := by
  refine ⟨rfl, ?_⟩
  exact claim4_return_isolation Nat
    { memory := fun q => if q = "k" then some 0 else none,
      expirations := fun q => if q = "k" then some 20 else none,
      fileEnabled := false, file := none, timeoutMs := 50 } [11] "k" 0 20 11 99 0 5 9
    rfl rfl (by decide) (by decide) rfl

end TTCache
namespace TTCache

/-- C6: when the target raises on a cache miss, the exception propagates
unchanged out of `_inner_get`, the resulting state (the one left by the
sweep and the merge) holds neither a value nor an expiration for the key,
and the backend file is exactly the one from before the call (no write
happened). -/
theorem claim6_target_failure_propagates (V E : Type) (now : Nat)
    (st : CacheState V) (k : Key) (err : E)
    (hWF : CacheWF st) (hFile : FileWF st)
    (hmiss : (updateFromFileCache now (checkMemoryInvalidations now st)).memory k = none) :
    innerGetExc now st k (Except.error err) =
      (Except.error err, updateFromFileCache now (checkMemoryInvalidations now st)) ∧
      (updateFromFileCache now (checkMemoryInvalidations now st)).expirations k = none ∧
      (updateFromFileCache now (checkMemoryInvalidations now st)).file = st.file := by
  have hfile1 : FileWF (checkMemoryInvalidations now st) := filewf_sweep now st hFile
  have h1 : (checkMemoryInvalidations now st).memory k = none := by
    cases hc : (checkMemoryInvalidations now st).memory k with
    | none => rfl
    | some v =>
      exfalso
      have hsome : ((updateFromFileCache now (checkMemoryInvalidations now st)).memory k).isSome
          = true :=
        merge_mem_isSome now _ k hfile1 (by rw [hc]; rfl)
      rw [hmiss] at hsome
      cases hsome
  have hwf2 : CacheWF (updateFromFileCache now (checkMemoryInvalidations now st)) :=
    wf_merge now _ (wf_sweep now st hWF) hfile1
  have hexp : (updateFromFileCache now (checkMemoryInvalidations now st)).expirations k
      = none := by
    have h3 := hwf2 k
    rw [hmiss] at h3
    cases h2 : (updateFromFileCache now (checkMemoryInvalidations now st)).expirations k with
    | none => rfl
    | some e => simp [h2] at h3
  refine ⟨?_, hexp, ?_⟩
  · unfold innerGetExc
    simp [h1, hmiss]
  · rw [merge_file, sweep_file]

/-- Witness for C6 on a fresh memory-only instance: the error "boom" comes
back unchanged and the state stays empty for the key with the file
untouched. -/
theorem claim6_witness :
    CacheWF sampleMemState ∧ FileWF sampleMemState ∧
      (updateFromFileCache 4 (checkMemoryInvalidations 4 sampleMemState)).memory "k" = none ∧
      (innerGetExc 4 sampleMemState "k" (Except.error "boom") =
        (Except.error "boom", updateFromFileCache 4 (checkMemoryInvalidations 4 sampleMemState)) ∧
        (updateFromFileCache 4 (checkMemoryInvalidations 4 sampleMemState)).expirations "k" = none ∧
        (updateFromFileCache 4 (checkMemoryInvalidations 4 sampleMemState)).file =
          sampleMemState.file) := by
  have hwf : CacheWF sampleMemState := fun _ => Iff.rfl
  have hfile : FileWF sampleMemState := fun snap hf => Option.noConfusion hf
  exact ⟨hwf, hfile, rfl,
    claim6_target_failure_propagates Nat String 4 sampleMemState "k" "boom" hwf hfile rfl⟩

/-- C7: invalidating key `k` leaves every other key `k2` with exactly the
value and expiration the merge-from-file step produced, the merge itself
only keeps or refreshes `k2` (its result is either the prior local entry
or the snapshot entry, and it never drops a present entry), and `k` itself
is removed from both maps. -/
theorem claim7_invalidate_surgical (V : Type) (now : Nat) (st : CacheState V)
    (k k2 : Key) (hWF : CacheWF st) (hFile : FileWF st) (hne : k2 ≠ k) :
    (invalidate now st k).memory k2 = (updateFromFileCache now st).memory k2 ∧
      (invalidate now st k).expirations k2 = (updateFromFileCache now st).expirations k2 ∧
      ((updateFromFileCache now st).memory k2 = st.memory k2 ∨
        ∃ snap, st.file = some snap ∧
          (updateFromFileCache now st).memory k2 = snap.items k2) ∧
      ((st.memory k2).isSome = true → ((invalidate now st k).memory k2).isSome = true) ∧
      (invalidate now st k).memory k = none ∧
      (invalidate now st k).expirations k = none := by
  have hwfm : CacheWF (updateFromFileCache now st) := wf_merge now st hWF hFile
  have hsrc : ((updateFromFileCache now st).memory k2 = st.memory k2 ∨
      ∃ snap, st.file = some snap ∧
        (updateFromFileCache now st).memory k2 = snap.items k2) := by
    cases hf : st.file with
    | none => rw [merge_of_no_file now st hf]; exact Or.inl rfl
    | some snap =>
      rw [merge_mem now st snap hf k2]
      cases hse : snap.expirations k2 with
      | none => exact Or.inl rfl
      | some e =>
        by_cases hc : importCond now (st.expirations k2) e = true
        · exact Or.inr ⟨snap, rfl, by simp [hc]⟩
        · exact Or.inl (by simp [hc])
  have hmerge_keep : (st.memory k2).isSome = true →
      ((updateFromFileCache now st).memory k2).isSome = true :=
    fun h => merge_mem_isSome now st k2 hFile h
  by_cases he : ((updateFromFileCache now st).expirations k).isSome = true
  · have hinv : invalidate now st k =
        writeToFileCache
          { updateFromFileCache now st with
            memory := mapErase (updateFromFileCache now st).memory k
            expirations := mapErase (updateFromFileCache now st).expirations k } := by
      unfold invalidate
      simp only [he, if_true]
    rw [hinv]
    refine ⟨?_, ?_, hsrc, ?_, ?_, ?_⟩
    · rw [write_mem]
      simp [mapErase, hne]
    · rw [write_exp]
      simp [mapErase, hne]
    · intro h
      rw [write_mem]
      simpa [mapErase, hne] using hmerge_keep h
    · rw [write_mem]
      simp [mapErase]
    · rw [write_exp]
      simp [mapErase]
  · have hek : (updateFromFileCache now st).expirations k = none := by
      cases h2 : (updateFromFileCache now st).expirations k with
      | none => rfl
      | some e => exact absurd (by rw [h2]; rfl) he
    have hmk : (updateFromFileCache now st).memory k = none := by
      have h3 := hwfm k
      rw [hek] at h3
      cases h2 : (updateFromFileCache now st).memory k with
      | none => rfl
      | some v => simp [h2] at h3
    have hinv : invalidate now st k = updateFromFileCache now st := by
      unfold invalidate
      simp [he]
    rw [hinv]
    exact ⟨rfl, rfl, hsrc, hmerge_keep, hmk, hek⟩

/-- Witness for C7 at a concrete persisted state: invalidating key "b"
imports and keeps key "a" from the snapshot and leaves no entry for "b". -/
theorem claim7_witness :
    CacheWF sampleFileState ∧ FileWF sampleFileState ∧ ("a" : Key) ≠ "b" ∧
      ((invalidate 10 sampleFileState "b").memory "a" =
          (updateFromFileCache 10 sampleFileState).memory "a" ∧
        (invalidate 10 sampleFileState "b").expirations "a" =
          (updateFromFileCache 10 sampleFileState).expirations "a" ∧
        ((updateFromFileCache 10 sampleFileState).memory "a" = sampleFileState.memory "a" ∨
          ∃ snap, sampleFileState.file = some snap ∧
            (updateFromFileCache 10 sampleFileState).memory "a" = snap.items "a") ∧
        ((sampleFileState.memory "a").isSome = true →
          ((invalidate 10 sampleFileState "b").memory "a").isSome = true) ∧
        (invalidate 10 sampleFileState "b").memory "b" = none ∧
        (invalidate 10 sampleFileState "b").expirations "b" = none) := by
  have hwf : CacheWF sampleFileState := fun _ => Iff.rfl
  have hfile : FileWF sampleFileState := by
    intro snap hf
    have hs : snap = sampleSnap := by
      have : (some sampleSnap : Option (Snapshot Nat)) = some snap := hf
      injection this with h2
      exact h2.symm
    subst hs
    intro q
    by_cases hq : q = "a"
    · subst hq
      exact Iff.rfl
    · constructor
      · intro h2
        exfalso
        have : sampleSnap.items q = none := by simp [sampleSnap, hq]
        rw [this] at h2
        cases h2
      · intro h2
        exfalso
        have : sampleSnap.expirations q = none := by simp [sampleSnap, hq]
        rw [this] at h2
        cases h2
  exact ⟨hwf, hfile, by decide,
    claim7_invalidate_surgical Nat 10 sampleFileState "b" "a" hwf hfile (by decide)⟩

/-- C8: the in-memory value map and the expirations map have the same key
set after construction and after every operation: the sweep, the
merge-from-file, the store, a full get, an invalidate and a flush each
preserve the combined invariant (same key sets in memory, and every
snapshot the instance can see also has matching key sets). -/
theorem claim8_key_set_invariant (V : Type) :
    (∀ (fe : Bool) (tm : Nat) (disk : Option (Snapshot V)),
      (∀ snap, disk = some snap → SnapWF snap) → Inv (initState fe tm disk)) ∧
    (∀ (now : Nat) (st : CacheState V), Inv st → Inv (checkMemoryInvalidations now st)) ∧
    (∀ (now : Nat) (st : CacheState V), Inv st → Inv (updateFromFileCache now st)) ∧
    (∀ (now : Nat) (st : CacheState V) (k : Key) (v : V), Inv st → Inv (store now st k v)) ∧
    (∀ (now : Nat) (st : CacheState V) (k : Key) (c : V),
      Inv st → Inv (innerGet now st k c).state) ∧
    (∀ (now : Nat) (st : CacheState V) (k : Key), Inv st → Inv (invalidate now st k)) ∧
    (∀ (st : CacheState V), Inv st → Inv (flush st)) :=
  ⟨inv_init, inv_sweep, inv_merge, inv_store, inv_innerGet, inv_invalidate, inv_flush⟩

/-- Witness for C8: the invariant holds for a fresh instance and is carried
through a concrete get that stores a value. -/
theorem claim8_witness :
    Inv sampleMemState ∧ Inv (innerGet 0 sampleMemState "k" (7 : Nat)).state := by
  have hinv : Inv sampleMemState :=
    ⟨fun _ => Iff.rfl, fun snap hf => Option.noConfusion hf⟩
  exact ⟨hinv, (claim8_key_set_invariant Nat).2.2.2.2.1 0 sampleMemState "k" 7 hinv⟩

end TTCache
